import Mathlib

/-!
Shallow embedding of the API gateway's decision-fabric core
(circuit breaker, rate limiters, load balancers, router + hot reload,
health checking), translated from the Go sources, together with theorems
settling the specification claims.

Modelling conventions:
* `time.Time` / `time.Duration` values are integers (nanoseconds) or
  rationals; every operation that reads the clock takes `now` explicitly.
* `float64` arithmetic is modelled exactly over `ℚ`; the one place where a
  float can become non-finite (token-bucket retry with `rate = 0`) is
  modelled explicitly with `Option`.
* Mutex-protected mutation becomes explicit state passing: an operation on
  a struct returns its result together with the updated struct.
-/

/-- Circuit-breaker states (`State` in src/unnamed/part_001).
`StateOpen` is named `opened` because `open` is a Lean keyword. -/
inductive CBState where
  | closed
  | opened
  | halfOpen
deriving DecidableEq, Repr

/-- `CircuitBreaker` (src/unnamed/part_001): `maxFailures`, `timeout`
(nanoseconds), the state enum, consecutive-failure count and the time of
the last recorded failure. -/
structure CircuitBreaker where
  maxFailures : Int
  timeout : Int
  state : CBState
  failures : Int
  lastFailureTime : Int
deriving DecidableEq, Repr

namespace CircuitBreaker

/-- `New` (src/unnamed/part_001:50): starts Closed; `failures` and
`lastFailureTime` are Go zero values. -/
def new (maxFailures timeout : Int) : CircuitBreaker :=
  { maxFailures, timeout, state := .closed, failures := 0, lastFailureTime := 0 }

/-- `Allow` (src/unnamed/part_001:61) at time `now`: returns whether the
request may proceed, plus the updated breaker. -/
def allow (cb : CircuitBreaker) (now : Int) : Bool × CircuitBreaker :=
  match cb.state with
  | .closed => (true, cb)
  | .opened =>
      if now - cb.lastFailureTime ≥ cb.timeout then
        (true, { cb with state := .halfOpen })
      else
        (false, cb)
  | .halfOpen => (false, cb)

/-- `RecordSuccess` (src/unnamed/part_001:90): reset the failure count and
close the circuit if half-open. -/
def recordSuccess (cb : CircuitBreaker) : CircuitBreaker :=
  { cb with failures := 0,
            state := if cb.state = .halfOpen then .closed else cb.state }

/-- `RecordFailure` (src/unnamed/part_001:102): increment failures, stamp
`lastFailureTime`, reopen from half-open, open when `failures ≥ maxFailures`. -/
def recordFailure (cb : CircuitBreaker) (now : Int) : CircuitBreaker :=
  let cb' := { cb with failures := cb.failures + 1, lastFailureTime := now }
  if cb'.state = .halfOpen then { cb' with state := .opened }
  else if cb'.failures ≥ cb'.maxFailures then { cb' with state := .opened }
  else cb'

end CircuitBreaker

/-- Result of `TokenBucket.Allow`: the admission flag and the retry-after
hint. `retryAfter = none` records that the Go float computation produced
`+Inf` (division by `rate = 0`), whose conversion to `time.Duration` is
implementation-defined in Go; `some q` is a finite wait of `q` seconds. -/
structure AllowReply where
  ok : Bool
  retryAfter : Option ℚ
deriving DecidableEq, Repr

/-- `TokenBucket` (src/internal/ratelimit/tokenbucket.go): current tokens,
capacity, refill rate (tokens/second) and the last refill timestamp
(seconds), all exact rationals standing for the Go float64/time values. -/
structure TokenBucket where
  tokens : ℚ
  capacity : ℚ
  rate : ℚ
  lastRefill : ℚ
deriving DecidableEq, Repr

/-- `NewTokenBucket` (tokenbucket.go:22): starts full; `lastRefill` is the
construction time. -/
def newTokenBucket (capacity : Int) (rate : ℚ) (now : ℚ) : TokenBucket :=
  { tokens := (capacity : ℚ), capacity := (capacity : ℚ), rate, lastRefill := now }

namespace TokenBucket

/-- `Allow` (tokenbucket.go:33): lazy refill clamped at capacity, then
consume one token or report the wait `(1 - tokens) / rate`. With
`rate = 0` the Go division yields `+Inf`, recorded here as `none`. -/
def allow (tb : TokenBucket) (now : ℚ) : AllowReply × TokenBucket :=
  let elapsed := now - tb.lastRefill
  let tokens := tb.tokens + elapsed * tb.rate
  let tokens := if tokens > tb.capacity then tb.capacity else tokens
  let tb' := { tb with tokens, lastRefill := now }
  if tb'.tokens ≥ 1 then
    (⟨true, some 0⟩, { tb' with tokens := tb'.tokens - 1 })
  else
    (⟨false, if tb'.rate = 0 then none else some ((1 - tb'.tokens) / tb'.rate)⟩, tb')

/-- Sequential `Allow` calls at the given times. -/
def allowRun (tb : TokenBucket) : List ℚ → List AllowReply × TokenBucket
  | [] => ([], tb)
  | t :: ts =>
      let p := tb.allow t
      let q := p.2.allowRun ts
      (p.1 :: q.1, q.2)

end TokenBucket

/-- `weightedEntry` (src/unnamed/part_003): address, fixed weight, and the
dynamic current weight. -/
structure WeightedEntry where
  addr : String
  weight : Int
  currentWeight : Int
deriving DecidableEq, Repr

/-- `WeightedRoundRobin` (src/unnamed/part_003): entries plus the cached
total of effective weights. -/
structure WeightedRoundRobin where
  entries : List WeightedEntry
  totalWeight : Int
deriving DecidableEq, Repr

/-- `NewWeightedRoundRobin` (part_003:34): weight `≤ 0` defaults to 1;
current weights start at 0; `totalWeight` sums the effective weights. -/
def newWeightedRoundRobin (backends : List (String × Int)) : WeightedRoundRobin :=
  let entries := backends.map fun b =>
    { addr := b.1, weight := if b.2 ≤ 0 then 1 else b.2, currentWeight := 0 }
  { entries, totalWeight := (entries.map (·.weight)).sum }

/-- The Go scan in `WeightedRoundRobin.Next` (part_003:69): index of the
first maximal `currentWeight` (only a strictly greater value displaces the
running best).  `bv` is the best value seen, `i` the next index, `best`
the index of the best value. -/
def bestIdxAux : List WeightedEntry → Int → ℕ → ℕ → ℕ
  | [], _, _, best => best
  | e :: es, bv, i, best =>
      if e.currentWeight > bv then bestIdxAux es e.currentWeight (i + 1) i
      else bestIdxAux es bv (i + 1) best

namespace WeightedRoundRobin

/-- `Next` (part_003:58): empty pool returns `""`; otherwise add each fixed
weight to its current weight, pick the first entry with the highest current
weight, and subtract `totalWeight` from the picked entry. -/
def next (wrr : WeightedRoundRobin) : String × WeightedRoundRobin :=
  let updated := wrr.entries.map fun x => { x with currentWeight := x.currentWeight + x.weight }
  match updated with
  | [] => ("", wrr)
  | u :: us =>
      let best := bestIdxAux us u.currentWeight 1 0
      let picked := (u :: us).getD best u
      let entries := (u :: us).set best { picked with currentWeight := picked.currentWeight - wrr.totalWeight }
      (picked.addr, { wrr with entries })

/-- State after `n` consecutive `Next` calls. -/
def nextN (wrr : WeightedRoundRobin) : ℕ → WeightedRoundRobin
  | 0 => wrr
  | n + 1 => (wrr.next.2).nextN n

/-- The address returned by the `(n+1)`-th `Next` call (0-indexed). -/
def pick (wrr : WeightedRoundRobin) (n : ℕ) : String := ((wrr.nextN n).next).1

/-- Number of calls among positions `s, s+1, …, s+n-1` that return `x`. -/
def countPick (wrr : WeightedRoundRobin) (x : String) : ℕ → ℕ → ℕ
  | _, 0 => 0
  | s, n + 1 => (if wrr.pick s = x then 1 else 0) + wrr.countPick x (s + 1) n

end WeightedRoundRobin

/-- `RoundRobin` (src/internal/lb/lb.go): backends and the shared `uint64`
counter, kept modulo `2^64`. -/
structure RoundRobin where
  backends : List String
  counter : ℕ
deriving DecidableEq, Repr

/-- `NewRoundRobin` (lb.go:14): counter starts at the zero value. -/
def newRoundRobin (backends : List String) : RoundRobin :=
  { backends, counter := 0 }

/-- `RoundRobin.Next` (lb.go:20): increments the counter and indexes
`backends[idx % len]`.  With an empty pool Go evaluates `idx % uint64(0)`,
which panics (integer divide by zero); the panic is modelled as `none`. -/
def RoundRobin.next (rr : RoundRobin) : Option String × RoundRobin :=
  let idx := (rr.counter + 1) % 2 ^ 64
  let rr' := { rr with counter := idx }
  if h : rr'.backends.length = 0 then
    (none, rr')
  else
    (some (rr'.backends.get ⟨idx % rr'.backends.length, Nat.mod_lt _ (Nat.pos_of_ne_zero h)⟩), rr')

/-- `leastConnEntry` (src/internal/lb/leastconn.go): backend address and its
atomic active-connection count. -/
structure LeastConnEntry where
  addr : String
  active : Int
deriving DecidableEq, Repr

/-- `LeastConnections` (leastconn.go). -/
structure LeastConnections where
  entries : List LeastConnEntry
deriving DecidableEq, Repr

/-- `NewLeastConnections` (leastconn.go:25): all counts start at 0. -/
def newLeastConnections (backends : List String) : LeastConnections :=
  ⟨backends.map fun a => { addr := a, active := 0 }⟩

/-- The scan in `LeastConnections.Next` (leastconn.go:43): index of the
first minimal active count (only a strictly smaller count displaces). -/
def minIdxAux : List LeastConnEntry → Int → ℕ → ℕ → ℕ
  | [], _, _, best => best
  | e :: es, bv, i, best =>
      if e.active < bv then minIdxAux es e.active (i + 1) i
      else minIdxAux es bv (i + 1) best

/-- `LeastConnections.Next` (leastconn.go:35): empty pool returns `""`;
otherwise pick the first entry with the fewest active connections and
increment its count. -/
def LeastConnections.next (lc : LeastConnections) : String × LeastConnections :=
  match lc.entries with
  | [] => ("", lc)
  | e :: es =>
      let best := minIdxAux es e.active 1 0
      let picked := (e :: es).getD best e
      (picked.addr, ⟨(e :: es).set best { picked with active := picked.active + 1 }⟩)

/-- `ConsistentHash` (src/internal/lb/consistenthash.go): sorted ring of
virtual-node hash values and the hash→backend association (the Go map,
kept as the insertion list; later inserts shadow earlier ones on lookup).
The CRC32 hash is a parameter of the operations. -/
structure ConsistentHash where
  ring : List ℕ
  nodeMap : List (ℕ × String)
  replicas : Int
deriving DecidableEq, Repr

/-- Go map lookup with string zero value: the most recent binding wins. -/
def goMapGet (m : List (ℕ × String)) (k : ℕ) : String :=
  match m.reverse.find? (fun kv => kv.1 = k) with
  | some kv => kv.2
  | none => ""

/-- `NewConsistentHash` (consistenthash.go:27): for each backend place
`replicas` virtual nodes keyed `"<addr>-<i>"`, then sort the ring. -/
def newConsistentHash (hash : String → ℕ) (replicas : Int) (backends : List String) : ConsistentHash :=
  let pairs := backends.flatMap fun b =>
    (List.range replicas.toNat).map fun i => (hash (b ++ "-" ++ toString i), b)
  { ring := (pairs.map (·.1)).mergeSort (· ≤ ·),
    nodeMap := pairs,
    replicas }

/-- `NextWithKey` (consistenthash.go:60): empty ring returns `""`;
otherwise hash the key, binary-search for the first ring value `≥ h`
(`sort.Search`), wrap past the end to index 0, and look up the backend. -/
def ConsistentHash.nextWithKey (ch : ConsistentHash) (hash : String → ℕ) (key : String) : String :=
  if ch.ring.isEmpty then ""
  else
    let h := hash key
    let idx := match ch.ring.findIdx? (fun v => h ≤ v) with
      | some i => i
      | none => 0
    goMapGet ch.nodeMap (ch.ring.getD idx 0)

/-- `RouteConfig` (router.go config section): one route as configured.
The Go `Headers` map is kept as an association list. -/
structure RouteConfig where
  path : String
  headers : List (String × String)
  backends : List String
deriving DecidableEq, Repr

/-- `GatewayConfig` (router.go config section). -/
structure GatewayConfig where
  routes : List RouteConfig
deriving DecidableEq, Repr

/-- `Route` (router.go:10): a compiled route ready for matching. -/
structure Route where
  path : String
  headers : List (String × String)
  backends : List String
deriving DecidableEq, Repr

/-- `strings.HasPrefix`, on the character-list view of strings (for ASCII
route tables this coincides with Go's byte-level check). -/
def goHasPrefix (s pre : String) : Bool :=
  pre.data.isPrefixOf s.data

/-- `strings.HasSuffix`, on the character-list view of strings. -/
def goHasSuffix (s suf : String) : Bool :=
  suf.data.isSuffixOf s.data

/-- `strings.TrimSuffix`: drop `suf` when `s` ends with it. -/
def trimSuffix (s suf : String) : String :=
  if goHasSuffix s suf then ⟨s.data.take (s.data.length - suf.data.length)⟩ else s

/-- Route compilation inside `New` (router.go:30): strip a trailing `/*`,
then a trailing `*`, from the configured path. -/
def compileRoute (rc : RouteConfig) : Route :=
  { path := trimSuffix (trimSuffix rc.path "/*") "*",
    headers := rc.headers,
    backends := rc.backends }

/-- The ordering under which `New` sorts the route table (router.go:45):
`a` sorts no later than `b` when `a`'s path is longer, or the paths have
equal length and `a` has at least as many required headers.  This is the
negation-swap of the Go `less` closure, hence a total preorder. -/
def specLe (a b : Route) : Prop :=
  b.path.length < a.path.length ∨
    (a.path.length = b.path.length ∧ b.headers.length ≤ a.headers.length)

instance : DecidableRel specLe := fun a b => by
  unfold specLe
  infer_instance

instance : IsTotal Route specLe :=
  ⟨by intro a b; unfold specLe; omega⟩

instance : IsTrans Route specLe :=
  ⟨by intro a b c; unfold specLe; omega⟩

/-- Strictly higher specificity: longer path, or equal-length path with
strictly more required headers. -/
def moreSpecific (a b : Route) : Prop :=
  b.path.length < a.path.length ∨
    (a.path.length = b.path.length ∧ b.headers.length < a.headers.length)

/-- `Router` (router.go:23): the sorted route table. -/
structure Router where
  routes : List Route
deriving DecidableEq, Repr

/-- `New` (router.go:28): compile each configured route and sort by
specificity (longer paths first; at equal length, more headers first).
Go's `sort.Slice` is an unstable sort; `insertionSort` realises the same
ordering (ties between routes of equal specificity may be permuted, as
they may under `sort.Slice`). -/
def Router.new (cfg : GatewayConfig) : Router :=
  ⟨List.insertionSort specLe (cfg.routes.map compileRoute)⟩

/-- An incoming request for matching purposes: the URL path and the
`req.Header.Get` view (returns `""` for an absent header). -/
structure Request where
  path : String
  headerGet : String → String

/-- `matchHeaders` (router.go:78): every required header must be present
with any value when the required value is `"*"`, or equal otherwise. -/
def matchHeaders (req : Request) (required : List (String × String)) : Bool :=
  required.all fun kv =>
    if kv.2 = "*" then !(req.headerGet kv.1 == "") else req.headerGet kv.1 == kv.2

/-- The per-route test in `Match` (router.go:63): path-prefix check and
header check. -/
def routeMatches (req : Request) (r : Route) : Bool :=
  goHasPrefix req.path r.path && matchHeaders req r.headers

/-- `Match` (router.go:58): first route in table order that matches;
`none` when no route matches. -/
def Router.matchRequest (r : Router) (req : Request) : Option Route :=
  r.routes.find? (routeMatches req)

/-- `validateConfig`'s per-route loop (router.go config section): reject an
empty path or an empty backend list, reporting the route index. -/
def validateRoutes : ℕ → List RouteConfig → Except String Unit
  | _, [] => .ok ()
  | i, r :: rs =>
      if r.path = "" then
        .error s!"route {i}: path cannot be empty"
      else if r.backends.isEmpty then
        .error s!"route {i}: must have at least one backend"
      else validateRoutes (i + 1) rs

/-- `validateConfig` (router.go config section): at least one route, and
every route valid. -/
def validateConfig (cfg : GatewayConfig) : Except String Unit :=
  if cfg.routes.isEmpty then .error "config must have at least one route"
  else validateRoutes 0 cfg.routes

/-- `ParseConfig` (router.go config section): `none` stands for a YAML
unmarshal failure; a parsed config must additionally validate. -/
def parseConfig (yamlResult : Option GatewayConfig) : Except String GatewayConfig :=
  match yamlResult with
  | none => .error "parse config: unmarshal failed"
  | some cfg =>
      match validateConfig cfg with
      | .error e => .error e
      | .ok _ => .ok cfg

/-- `HotReloader` (router.go hot-reload section): the published router and
the last seen modification time (the polling goroutine and file system are
external; `checkAndReload` takes their outcomes as arguments). -/
structure HotReloader where
  router : Router
  lastModTime : Int

/-- `checkAndReload` (router.go:531): `statResult` is the `os.Stat`
outcome (`none` = error, `some t` = the file's mtime), `loadResult` the
`LoadConfig` outcome.  A stat error, an unchanged mtime, or a failed load
leaves the reloader untouched; only a successful load publishes a new
router and advances `lastModTime`. -/
def HotReloader.checkAndReload (hr : HotReloader) (statResult : Option Int)
    (loadResult : Except String GatewayConfig) : HotReloader :=
  match statResult with
  | none => hr
  | some modTime =>
      if ¬ hr.lastModTime < modTime then hr
      else
        match loadResult with
        | .error _ => hr
        | .ok cfg => { router := Router.new cfg, lastModTime := modTime }

/-- `requestOutcome` (src/unnamed/part_002): timestamp (seconds, exact)
and success flag. -/
structure RequestOutcome where
  timestamp : ℚ
  success : Bool
deriving DecidableEq, Repr

/-- `PassiveChecker` configuration fields (src/unnamed/part_002). -/
structure PassiveChecker where
  windowSize : ℚ
  errorThreshold : ℚ
  minRequests : Int
deriving DecidableEq, Repr

/-- The failure count loop in `IsHealthy` (part_002:105). -/
def countFailures (outcomes : List RequestOutcome) : ℕ :=
  (outcomes.filter fun o => !o.success).length

/-- `PassiveChecker.IsHealthy` (part_002:80) for one backend: `entry` is
the backend's slot in the `backends` map (`none` when never recorded).
Trim the outcomes whose timestamp lies before `now - windowSize` (a prefix
drop, as in the source), then judge.  The float64 error rate and threshold
comparison are modelled exactly over `ℚ`. -/
def PassiveChecker.isHealthy (pc : PassiveChecker)
    (entry : Option (List RequestOutcome)) (now : ℚ) : Bool :=
  match entry with
  | none => true
  | some outcomes =>
      let cutoff := now - pc.windowSize
      let kept := outcomes.dropWhile fun o => decide (o.timestamp < cutoff)
      if (kept.length : Int) < pc.minRequests then true
      else decide ((countFailures kept : ℚ) / (kept.length : ℚ) < pc.errorThreshold)

/-- `CombinedChecker` (src/internal/health/combined.go): the active and
passive verdicts, abstracted as the per-backend boolean views the two
checkers currently give. -/
structure CombinedChecker where
  active : String → Bool
  passive : String → Bool

/-- `CombinedChecker.IsHealthy` (combined.go:22): both must pass. -/
def CombinedChecker.isHealthy (c : CombinedChecker) (backend : String) : Bool :=
  c.active backend && c.passive backend

/-- `ErrAllBackendsUnhealthy` (src/internal/health/pool.go:10). -/
def errAllBackendsUnhealthy : String := "all backends are unhealthy"

/-- `HealthyPool` (pool.go:14): all configured backends plus the combined
checker. -/
structure HealthyPool where
  all : List String
  checker : CombinedChecker

/-- `Healthy` (pool.go:30): the backends passing the combined filter, or a
copy of the full list when none pass (fail-open). -/
def HealthyPool.healthy (hp : HealthyPool) : List String :=
  let healthy := hp.all.filter hp.checker.isHealthy
  if healthy.isEmpty then hp.all else healthy

/-- `HealthyOrError` (pool.go:51): the backends passing the filter, or the
sentinel error when none pass (fail-closed). -/
def HealthyPool.healthyOrError (hp : HealthyPool) : Except String (List String) :=
  let healthy := hp.all.filter hp.checker.isHealthy
  if healthy.isEmpty then .error errAllBackendsUnhealthy else .ok healthy

/-- `SlidingWindow` (src/internal/ratelimit/slidingwindow.go): limit,
window size and start (seconds, exact), and the two counters. -/
structure SlidingWindow where
  maxRequests : Int
  windowSize : ℚ
  windowStart : ℚ
  prevCount : Int
  currCount : Int
deriving DecidableEq, Repr

/-- `NewSlidingWindow` (slidingwindow.go:28). -/
def newSlidingWindow (maxRequests : Int) (windowSize : ℚ) (now : ℚ) : SlidingWindow :=
  { maxRequests, windowSize, windowStart := now, prevCount := 0, currCount := 0 }

namespace SlidingWindow

/-- `Allow` (slidingwindow.go:37): reset after ≥ 2 windows of idleness,
rotate after ≥ 1 window, then compare the weighted effective count against
the limit.  Returns `(ok, retryAfter)` and the updated state; float64
arithmetic is modelled exactly over `ℚ`. -/
def allow (sw : SlidingWindow) (now : ℚ) : (Bool × ℚ) × SlidingWindow :=
  let elapsed := now - sw.windowStart
  let p :=
    if elapsed ≥ 2 * sw.windowSize then
      ({ sw with prevCount := 0, currCount := 0, windowStart := now }, (0 : ℚ))
    else if elapsed ≥ sw.windowSize then
      let ws := sw.windowStart + sw.windowSize
      ({ sw with prevCount := sw.currCount, currCount := 0, windowStart := ws }, now - ws)
    else (sw, elapsed)
  let sw' := p.1
  let elapsed' := p.2
  let weight := 1 - elapsed' / sw'.windowSize
  let weight := if weight < 0 then 0 else weight
  let effective := (sw'.prevCount : ℚ) * weight + (sw'.currCount : ℚ)
  if effective + 1 > (sw'.maxRequests : ℚ) then
    ((false, sw'.windowSize - elapsed'), sw')
  else
    ((true, 0), { sw' with currCount := sw'.currCount + 1 })

/-- Sequential `Allow` calls at the given times, keeping the `ok` flags. -/
def allowRun (sw : SlidingWindow) : List ℚ → List Bool × SlidingWindow
  | [] => ([], sw)
  | t :: ts =>
      let p := sw.allow t
      let q := p.2.allowRun ts
      (p.1.1 :: q.1, q.2)

end SlidingWindow

/-- The claim's first configuration: backends A (weight 2) and B (weight 1). -/
def wrrAB : WeightedRoundRobin := newWeightedRoundRobin [("A", 2), ("B", 1)]

/-- The claim's second configuration: A:5, B:1, C:1. -/
def wrrABC : WeightedRoundRobin := newWeightedRoundRobin [("A", 5), ("B", 1), ("C", 1)]

/-- C1: the circuit breaker follows the specified state machine: it starts
Closed; a `RecordFailure` from Closed that makes `failures ≥ maxFailures`
moves it to Open; an `Allow` in Open with `now - lastFailureTime ≥ timeout`
moves it to HalfOpen and returns true; `Allow` in HalfOpen returns false
and changes nothing (until an outcome is recorded); `RecordSuccess` in
HalfOpen yields Closed with `failures = 0`; `RecordFailure` in HalfOpen
yields Open with `lastFailureTime = now`. -/
theorem circuitBreaker_state_machine (mf tmo : Int) (cb : CircuitBreaker) (now : Int) :
    ((CircuitBreaker.new mf tmo).state = .closed ∧ (CircuitBreaker.new mf tmo).failures = 0)
  ∧ (cb.state = .closed → cb.maxFailures ≤ (cb.recordFailure now).failures →
      (cb.recordFailure now).state = .opened)
  ∧ (cb.state = .opened → cb.timeout ≤ now - cb.lastFailureTime →
      cb.allow now = (true, { cb with state := .halfOpen }))
  ∧ (cb.state = .halfOpen → cb.allow now = (false, cb))
  ∧ (cb.state = .halfOpen → cb.recordSuccess = { cb with state := .closed, failures := 0 })
  ∧ (cb.state = .halfOpen → (cb.recordFailure now).state = .opened
      ∧ (cb.recordFailure now).lastFailureTime = now) := by
  refine ⟨⟨rfl, rfl⟩, ?_, ?_, ?_, ?_, ?_⟩
  · intro h1 h2
    simp only [CircuitBreaker.recordFailure, h1] at h2 ⊢
    simp only [reduceCtorEq, if_false] at h2 ⊢
    split at h2 <;> split <;> simp_all
  · intro h1 h2
    simp [CircuitBreaker.allow, h1, if_pos (by omega : now - cb.lastFailureTime ≥ cb.timeout)]
  · intro h1
    simp [CircuitBreaker.allow, h1]
  · intro h1
    simp [CircuitBreaker.recordSuccess, h1]
  · intro h1
    simp [CircuitBreaker.recordFailure, h1]

/-- Witness for C1 at concrete breakers: an Open breaker with the timeout
expired admits the probe and becomes HalfOpen; a HalfOpen breaker rejects;
the third consecutive failure (maxFailures = 3) opens a Closed breaker;
success in HalfOpen closes it. -/
theorem circuitBreaker_state_machine_witness :
    ((⟨3, 10, CBState.opened, 3, 0⟩ : CircuitBreaker).allow 12
        = (true, ⟨3, 10, CBState.halfOpen, 3, 0⟩))
  ∧ ((⟨3, 10, CBState.halfOpen, 3, 0⟩ : CircuitBreaker).allow 12
        = (false, ⟨3, 10, CBState.halfOpen, 3, 0⟩))
  ∧ ((⟨3, 10, CBState.closed, 2, 0⟩ : CircuitBreaker).recordFailure 5).state = CBState.opened
  ∧ ((⟨3, 10, CBState.halfOpen, 1, 0⟩ : CircuitBreaker).recordSuccess
        = ⟨3, 10, CBState.closed, 0, 0⟩) := by
  have h1 := circuitBreaker_state_machine 3 10 ⟨3, 10, .opened, 3, 0⟩ 12
  have h2 := circuitBreaker_state_machine 3 10 ⟨3, 10, .halfOpen, 3, 0⟩ 12
  have h3 := circuitBreaker_state_machine 3 10 ⟨3, 10, .closed, 2, 0⟩ 5
  have h4 := circuitBreaker_state_machine 3 10 ⟨3, 10, .halfOpen, 1, 0⟩ 0
  exact ⟨h1.2.2.1 rfl (by decide), h2.2.2.2.1 rfl,
    h3.2.1 rfl (by decide), h4.2.2.2.2.1 rfl⟩

/-- C10: `RecordSuccess` while Open resets the failure counter but leaves
the state Open and `lastFailureTime` unchanged; no record operation leaves
Open, and `Allow` leaves Open only once the timeout has elapsed. -/
theorem circuitBreaker_recordSuccess_open (cb : CircuitBreaker) (now : Int)
    (h : cb.state = .opened) :
    cb.recordSuccess.failures = 0
  ∧ cb.recordSuccess.state = .opened
  ∧ cb.recordSuccess.lastFailureTime = cb.lastFailureTime
  ∧ (cb.recordFailure now).state = .opened
  ∧ (now - cb.lastFailureTime < cb.timeout → cb.allow now = (false, cb))
  ∧ (cb.timeout ≤ now - cb.lastFailureTime → (cb.allow now).2.state = .halfOpen) := by
  refine ⟨?_, ?_, ?_, ?_, ?_, ?_⟩
  · simp [CircuitBreaker.recordSuccess]
  · simp [CircuitBreaker.recordSuccess, h]
  · simp [CircuitBreaker.recordSuccess]
  · simp only [CircuitBreaker.recordFailure, h]
    split <;> simp_all
  · intro h2
    simp [CircuitBreaker.allow, h, if_neg (by omega : ¬ now - cb.lastFailureTime ≥ cb.timeout)]
  · intro h2
    simp [CircuitBreaker.allow, h, if_pos (by omega : now - cb.lastFailureTime ≥ cb.timeout)]

/-- Witness for C10 at a concrete Open breaker. -/
theorem circuitBreaker_recordSuccess_open_witness :
    ((⟨3, 10, CBState.opened, 3, 7⟩ : CircuitBreaker).recordSuccess.failures = 0)
  ∧ ((⟨3, 10, CBState.opened, 3, 7⟩ : CircuitBreaker).recordSuccess.state = CBState.opened)
  ∧ ((⟨3, 10, CBState.opened, 3, 7⟩ : CircuitBreaker).recordSuccess.lastFailureTime = 7)
  ∧ ((⟨3, 10, CBState.opened, 3, 7⟩ : CircuitBreaker).allow 8 = (false, ⟨3, 10, .opened, 3, 7⟩)) := by
  have h := circuitBreaker_recordSuccess_open ⟨3, 10, .opened, 3, 7⟩ 8 rfl
  exact ⟨h.1, h.2.1, h.2.2.1, h.2.2.2.2.1 (by decide)⟩

/-- With `rate = 0` and at least one whole token, `Allow` admits and
consumes exactly one token regardless of the call time. -/
theorem tokenBucket_allow_rate0_pos (tb : TokenBucket) (t : ℚ) (n : ℕ)
    (hr : tb.rate = 0) (ht : tb.tokens = (n : ℚ) + 1) (hc : tb.tokens ≤ tb.capacity) :
    tb.allow t = (⟨true, some 0⟩, { tb with tokens := (n : ℚ), lastRefill := t }) := by
  obtain ⟨tok, cap, rate, lr⟩ := tb
  simp only at hr ht hc
  subst hr ht
  simp only [TokenBucket.allow, mul_zero, add_zero]
  rw [if_neg (not_lt.mpr hc)]
  rw [if_pos (by have h0 : (0 : ℚ) ≤ (n : ℚ) := Nat.cast_nonneg n; linarith : (n : ℚ) + 1 ≥ 1)]
  simp

/-- With `rate = 0` and an empty bucket, `Allow` rejects and the retry
computation divides by zero: the Go float is `+Inf` (`none`). -/
theorem tokenBucket_allow_rate0_empty (tb : TokenBucket) (t : ℚ)
    (hr : tb.rate = 0) (ht : tb.tokens = 0) (hc : 0 ≤ tb.capacity) :
    tb.allow t = (⟨false, none⟩, { tb with lastRefill := t }) := by
  obtain ⟨tok, cap, rate, lr⟩ := tb
  simp only at hr ht hc
  subst hr ht
  simp only [TokenBucket.allow, mul_zero, add_zero]
  rw [if_neg (not_lt.mpr hc)]
  rw [if_neg (by norm_num : ¬ (0 : ℚ) ≥ 1)]
  simp

/-- `allowRun` distributes over list append. -/
theorem tokenBucket_allowRun_append (tb : TokenBucket) (xs ys : List ℚ) :
    tb.allowRun (xs ++ ys)
      = ((tb.allowRun xs).1 ++ ((tb.allowRun xs).2.allowRun ys).1,
         ((tb.allowRun xs).2.allowRun ys).2) := by
  induction xs generalizing tb with
  | nil => simp [TokenBucket.allowRun]
  | cons t ts ih => simp [TokenBucket.allowRun, ih]

/-- Draining lemma: with `rate = 0` and exactly `ts.length` tokens, every
call in `ts` is admitted and the bucket ends empty. -/
theorem tokenBucket_allowRun_rate0_drain :
    ∀ (ts : List ℚ) (tb : TokenBucket), tb.rate = 0 → tb.tokens = (ts.length : ℚ) →
    tb.tokens ≤ tb.capacity →
    (tb.allowRun ts).1 = List.replicate ts.length ⟨true, some 0⟩
    ∧ (tb.allowRun ts).2.rate = 0 ∧ (tb.allowRun ts).2.tokens = 0
    ∧ (tb.allowRun ts).2.capacity = tb.capacity
  | [], tb, hr, ht, _ => by
      refine ⟨rfl, hr, ?_, rfl⟩
      simpa using ht
  | t :: ts, tb, hr, ht, hc => by
      have ht' : tb.tokens = (ts.length : ℚ) + 1 := by
        rw [ht]; push_cast [List.length_cons]; ring
      have hstep := tokenBucket_allow_rate0_pos tb t ts.length hr ht' hc
      have hlen : ((ts.length : ℕ) : ℚ) ≤ tb.capacity := by
        rw [ht'] at hc; linarith
      have hrec := tokenBucket_allowRun_rate0_drain ts
        { tb with tokens := ((ts.length : ℕ) : ℚ), lastRefill := t }
        hr rfl (by simpa using hlen)
      simp only [TokenBucket.allowRun, hstep, List.length_cons, List.replicate_succ]
      exact ⟨by rw [hrec.1], hrec.2.1, hrec.2.2.1, hrec.2.2.2⟩

/-- C2 (evaluation of the code at the claim's scenario): a token bucket
created full with capacity `C ≥ 1` and `rate = 0` admits its first `C`
calls (each with retry-after 0), and rejects the `(C+1)`-th call — but the
rejection's retry-after is `(1 - 0) / 0` in float64, i.e. `+Inf`
(`retryAfter = none`), whose conversion to `time.Duration` is
implementation-defined in Go (the negative `math.MinInt64` on amd64), not
the strictly positive duration the claim states. -/
theorem tokenBucket_rate0_oneShot (C : ℕ) (hC : 1 ≤ C) (t0 : ℚ) (ts : List ℚ) (tlast : ℚ)
    (hlen : ts.length = C) :
    ((newTokenBucket (C : Int) 0 t0).allowRun (ts ++ [tlast])).1
      = List.replicate C ⟨true, some 0⟩ ++ [⟨false, none⟩] := by
  have hdrain := tokenBucket_allowRun_rate0_drain ts (newTokenBucket (C : Int) 0 t0)
    rfl (by simp [newTokenBucket, hlen]) (by simp [newTokenBucket])
  have hcap : (0 : ℚ) ≤ ((newTokenBucket (C : Int) 0 t0).allowRun ts).2.capacity := by
    rw [hdrain.2.2.2]
    simp only [newTokenBucket]
    positivity
  have hlastStep := tokenBucket_allow_rate0_empty
    ((newTokenBucket (C : Int) 0 t0).allowRun ts).2 tlast
    hdrain.2.1 hdrain.2.2.1 hcap
  rw [tokenBucket_allowRun_append, hdrain.1, hlen]
  simp [TokenBucket.allowRun, hlastStep]

/-- Witness for C2's evaluation at capacity 1, rate 0: the first call is
admitted, the second rejected with the non-finite retry marker. -/
theorem tokenBucket_rate0_oneShot_witness :
    ((newTokenBucket ((1 : ℕ) : Int) 0 0).allowRun ([0] ++ [5])).1
      = List.replicate 1 ⟨true, some 0⟩ ++ [⟨false, none⟩] :=
  tokenBucket_rate0_oneShot 1 (by decide) 0 [0] 5 rfl

/-- `nextN` splits across addition. -/
theorem wrr_nextN_add (a : ℕ) :
    ∀ (b : ℕ) (wrr : WeightedRoundRobin), wrr.nextN (a + b) = (wrr.nextN a).nextN b := by
  induction a with
  | zero => intro b wrr; rw [Nat.zero_add]; rfl
  | succ a ih =>
      intro b wrr
      have h1 : a + 1 + b = (a + b) + 1 := by omega
      rw [h1]
      show (wrr.next.2).nextN (a + b) = _
      rw [ih b wrr.next.2]
      rfl

/-- A state that returns to itself after `p` calls makes `pick` periodic. -/
theorem wrr_pick_periodic (wrr : WeightedRoundRobin) (p : ℕ)
    (hp : wrr.nextN p = wrr) (n : ℕ) : wrr.pick (p + n) = wrr.pick n := by
  unfold WeightedRoundRobin.pick
  rw [wrr_nextN_add p n wrr, hp]

/-- `countPick` splits across addition of window lengths. -/
theorem wrr_countPick_add (wrr : WeightedRoundRobin) (x : String) (a : ℕ) :
    ∀ (s b : ℕ), wrr.countPick x s (a + b) = wrr.countPick x s a + wrr.countPick x (s + a) b := by
  induction a with
  | zero => intro s b; simp [WeightedRoundRobin.countPick]
  | succ a ih =>
      intro s b
      have h1 : a + 1 + b = (a + b) + 1 := by omega
      rw [h1]
      show (if wrr.pick s = x then 1 else 0) + wrr.countPick x (s + 1) (a + b) = _
      rw [ih (s + 1) b]
      have h2 : s + 1 + a = s + (a + 1) := by omega
      rw [h2]
      show _ = (if wrr.pick s = x then 1 else 0) + wrr.countPick x (s + 1) a + _
      omega

/-- Periodicity shifts a window by `p` without changing its count. -/
theorem wrr_countPick_shift (wrr : WeightedRoundRobin) (x : String) (p : ℕ)
    (hp : wrr.nextN p = wrr) (n : ℕ) :
    ∀ s, wrr.countPick x (s + p) n = wrr.countPick x s n := by
  induction n with
  | zero => intro s; rfl
  | succ n ih =>
      intro s
      show (if wrr.pick (s + p) = x then 1 else 0) + wrr.countPick x (s + p + 1) n = _
      have h1 : s + p = p + s := by omega
      have h2 : wrr.pick (s + p) = wrr.pick s := by rw [h1, wrr_pick_periodic wrr p hp s]
      have h3 : s + p + 1 = (s + 1) + p := by omega
      rw [h2, h3, ih (s + 1)]
      rfl

/-- Any window of one full period has the same count as the initial one. -/
theorem wrr_countPick_window (wrr : WeightedRoundRobin) (x : String) (p : ℕ)
    (hp : wrr.nextN p = wrr) : ∀ s, wrr.countPick x s p = wrr.countPick x 0 p := by
  intro s
  induction s with
  | zero => rfl
  | succ s ih =>
      have hsplit1 : wrr.countPick x s (1 + p)
          = wrr.countPick x s 1 + wrr.countPick x (s + 1) p := wrr_countPick_add wrr x 1 s p
      have hsplit2 : wrr.countPick x s (p + 1)
          = wrr.countPick x s p + wrr.countPick x (s + p) 1 := wrr_countPick_add wrr x p s 1
      have hshift : wrr.countPick x (s + p) 1 = wrr.countPick x s 1 :=
        wrr_countPick_shift wrr x p hp 1 s
      have hcomm : (1 : ℕ) + p = p + 1 := by omega
      rw [hcomm] at hsplit1
      rw [← ih]
      omega

/-- Over `k` full periods, each window count scales by `k`. -/
theorem wrr_countPick_cycles (wrr : WeightedRoundRobin) (x : String) (p : ℕ)
    (hp : wrr.nextN p = wrr) :
    ∀ (k s : ℕ), wrr.countPick x s (k * p) = k * wrr.countPick x 0 p := by
  intro k
  induction k with
  | zero => intro s; simp [WeightedRoundRobin.countPick]
  | succ k ih =>
      intro s
      have h1 : (k + 1) * p = p + k * p := by ring
      rw [h1, wrr_countPick_add wrr x p s (k * p), ih (s + p),
        wrr_countPick_window wrr x p hp s]
      ring

/-- C3: smooth weighted round robin.  For weights {A:2, B:1} the first
three `Next` calls return A, B, A, and every window of `k·3` consecutive
calls (starting anywhere in the call stream) returns A exactly `2k` times
and B exactly `k` times; for weights {A:5, B:1, C:1} every window of `k·7`
consecutive calls returns A `5k`, B `k` and C `k` times — in particular
700 calls from the start yield A:500, B:100, C:100 exactly. -/
theorem weightedRoundRobin_smooth :
    (wrrAB.pick 0 = "A" ∧ wrrAB.pick 1 = "B" ∧ wrrAB.pick 2 = "A")
  ∧ (∀ s k : ℕ, wrrAB.countPick "A" s (k * 3) = k * 2
       ∧ wrrAB.countPick "B" s (k * 3) = k * 1)
  ∧ (∀ s k : ℕ, wrrABC.countPick "A" s (k * 7) = k * 5
       ∧ wrrABC.countPick "B" s (k * 7) = k * 1
       ∧ wrrABC.countPick "C" s (k * 7) = k * 1)
  ∧ (wrrABC.countPick "A" 0 700 = 500 ∧ wrrABC.countPick "B" 0 700 = 100
       ∧ wrrABC.countPick "C" 0 700 = 100) := by
  have hpAB : wrrAB.nextN 3 = wrrAB := by decide
  have hpABC : wrrABC.nextN 7 = wrrABC := by decide
  have hAB : ∀ s k : ℕ, wrrAB.countPick "A" s (k * 3) = k * 2
      ∧ wrrAB.countPick "B" s (k * 3) = k * 1 := by
    intro s k
    constructor
    · rw [wrr_countPick_cycles wrrAB "A" 3 hpAB k s]
      have : wrrAB.countPick "A" 0 3 = 2 := by decide
      rw [this]
    · rw [wrr_countPick_cycles wrrAB "B" 3 hpAB k s]
      have : wrrAB.countPick "B" 0 3 = 1 := by decide
      rw [this]
  have hABC : ∀ s k : ℕ, wrrABC.countPick "A" s (k * 7) = k * 5
      ∧ wrrABC.countPick "B" s (k * 7) = k * 1
      ∧ wrrABC.countPick "C" s (k * 7) = k * 1 := by
    intro s k
    refine ⟨?_, ?_, ?_⟩
    · rw [wrr_countPick_cycles wrrABC "A" 7 hpABC k s]
      have : wrrABC.countPick "A" 0 7 = 5 := by decide
      rw [this]
    · rw [wrr_countPick_cycles wrrABC "B" 7 hpABC k s]
      have : wrrABC.countPick "B" 0 7 = 1 := by decide
      rw [this]
    · rw [wrr_countPick_cycles wrrABC "C" 7 hpABC k s]
      have : wrrABC.countPick "C" 0 7 = 1 := by decide
      rw [this]
  refine ⟨⟨by decide, by decide, by decide⟩, hAB, hABC, ?_, ?_, ?_⟩
  · have h := (hABC 0 100).1
    norm_num at h
    exact h
  · have h := (hABC 0 100).2.1
    norm_num at h
    exact h
  · have h := (hABC 0 100).2.2
    norm_num at h
    exact h

/-- C9: constructed from an empty backend list, `RoundRobin.Next` panics
(Go evaluates `idx % uint64(0)`, an integer division by zero — modelled as
`none`), while `LeastConnections.Next`, `WeightedRoundRobin.Next` and
`ConsistentHash.NextWithKey` each return the empty string. -/
theorem emptyPool_behavior :
    ((newRoundRobin []).next).1 = none
  ∧ ((newLeastConnections []).next).1 = ""
  ∧ ((newWeightedRoundRobin []).next).1 = ""
  ∧ ∀ (hash : String → ℕ) (replicas : Int) (key : String),
      (newConsistentHash hash replicas []).nextWithKey hash key = "" := by
  refine ⟨by decide, rfl, rfl, ?_⟩
  intro hash replicas key
  simp [newConsistentHash, ConsistentHash.nextWithKey]

/-- In a route table sorted by specificity, the first match dominates:
every strictly more specific route in the table fails to match. -/
theorem router_find_first_sorted (req : Request) :
    ∀ (l : List Route), l.Pairwise specLe →
    ∀ r, l.find? (routeMatches req) = some r →
    ∀ r' ∈ l, moreSpecific r' r → routeMatches req r' = false := by
  intro l
  induction l with
  | nil => intro _ r h; simp at h
  | cons a t ih =>
      intro hpw r hfind r' hr' hspec
      obtain ⟨hat, hpwt⟩ := List.pairwise_cons.mp hpw
      by_cases hpa : routeMatches req a = true
      · rw [List.find?_cons_of_pos _ hpa] at hfind
        have hra : r = a := by injection hfind with h; exact h.symm
        subst hra
        rcases List.mem_cons.mp hr' with h1 | h1
        · subst h1
          exact absurd hspec (by unfold moreSpecific; omega)
        · have hle := hat r' h1
          exact absurd hspec (by unfold specLe at hle; unfold moreSpecific; omega)
      · rw [List.find?_cons_of_neg _ hpa] at hfind
        rcases List.mem_cons.mp hr' with h1 | h1
        · subst h1; simpa using hpa
        · exact ih hpwt r hfind r' h1 hspec

/-- C4: `Match` scans the route table built by `New` — which is a
permutation of the compiled routes sorted by descending path length and
then descending required-header count — and returns the first route whose
path is a prefix of the request path and whose required headers all match
(`"*"` requiring any non-empty value, anything else exact equality); no
matching route with strictly higher specificity exists, and `Match`
returns `none` exactly when no route matches. -/
theorem router_match_spec (cfg : GatewayConfig) (req : Request) :
    ((Router.new cfg).matchRequest req
        = ((Router.new cfg).routes).find? (routeMatches req))
  ∧ ((Router.new cfg).routes).Perm (cfg.routes.map compileRoute)
  ∧ ((Router.new cfg).routes).Pairwise specLe
  ∧ (∀ r, (Router.new cfg).matchRequest req = some r →
        routeMatches req r = true
        ∧ ∀ r' ∈ (Router.new cfg).routes, moreSpecific r' r →
            routeMatches req r' = false)
  ∧ ((Router.new cfg).matchRequest req = none
        ↔ ∀ r ∈ (Router.new cfg).routes, routeMatches req r = false) := by
  refine ⟨rfl, List.perm_insertionSort _ _, List.sorted_insertionSort _ _, ?_, ?_⟩
  · intro r hfind
    exact ⟨List.find?_some hfind,
      router_find_first_sorted req _ (List.sorted_insertionSort _ _) r hfind⟩
  · constructor
    · intro hnone r hrmem
      have h := List.find?_eq_none.mp hnone r hrmem
      simpa using h
    · intro hall
      apply List.find?_eq_none.mpr
      intro r hrmem
      simp [hall r hrmem]

/-- Witness for C4 at a concrete config: with routes `/` and `/api/users`,
a request for `/api/users/1` is served by the longer prefix. -/
theorem router_match_spec_witness :
    routeMatches ⟨"/api/users/1", fun _ => ""⟩
      ⟨"/api/users", [], ["http://users:8080"]⟩ = true := by
  have h := router_match_spec
    ⟨[⟨"/", [], ["http://default:8080"]⟩, ⟨"/api/users", [], ["http://users:8080"]⟩]⟩
    ⟨"/api/users/1", fun _ => ""⟩
  exact (h.2.2.2.1 ⟨"/api/users", [], ["http://users:8080"]⟩ (by decide)).1

/-- C5: when the polled config fails parsing or validation,
`checkAndReload` leaves the published router and the stored
last-modification time unchanged; a YAML failure or any validation error
makes `ParseConfig` fail. -/
theorem hotReload_keeps_router (hr : HotReloader) (statResult : Option Int)
    (yamlResult : Option GatewayConfig)
    (hfail : ∃ e, parseConfig yamlResult = .error e) :
    (hr.checkAndReload statResult (parseConfig yamlResult)).router = hr.router
  ∧ (hr.checkAndReload statResult (parseConfig yamlResult)).lastModTime = hr.lastModTime
  ∧ (∀ cfg e, validateConfig cfg = .error e → parseConfig (some cfg) = .error e)
  ∧ (∃ e, parseConfig none = .error e) := by
  obtain ⟨e, he⟩ := hfail
  refine ⟨?_, ?_, ?_, ⟨"parse config: unmarshal failed", rfl⟩⟩
  · cases statResult with
    | none => rfl
    | some mt =>
        simp only [HotReloader.checkAndReload, he]
        split <;> rfl
  · cases statResult with
    | none => rfl
    | some mt =>
        simp only [HotReloader.checkAndReload, he]
        split <;> rfl
  · intro cfg e' hv
    simp [parseConfig, hv]

/-- Witness for C5: a reload attempt against a config with no routes
(validation failure) keeps the previous router. -/
theorem hotReload_keeps_router_witness :
    (HotReloader.checkAndReload ⟨⟨[⟨"/api", [], ["http://old:8080"]⟩]⟩, 0⟩ (some 5)
        (parseConfig (some ⟨[]⟩))).router = ⟨[⟨"/api", [], ["http://old:8080"]⟩]⟩ := by
  have h := hotReload_keeps_router ⟨⟨[⟨"/api", [], ["http://old:8080"]⟩]⟩, 0⟩ (some 5)
    (some ⟨[]⟩) ⟨"config must have at least one route", rfl⟩
  exact h.1

/-- On a timestamp-sorted outcome list, dropping the stale prefix is the
same as filtering out everything before the cutoff. -/
theorem outcomes_dropWhile_eq_filter (c : ℚ) :
    ∀ (l : List RequestOutcome), l.Pairwise (fun a b => a.timestamp ≤ b.timestamp) →
    l.dropWhile (fun o => decide (o.timestamp < c))
      = l.filter (fun o => decide (c ≤ o.timestamp)) := by
  intro l
  induction l with
  | nil => intro _; rfl
  | cons a t ih =>
      intro hpw
      obtain ⟨hat, hpwt⟩ := List.pairwise_cons.mp hpw
      by_cases ha : a.timestamp < c
      · rw [List.dropWhile_cons_of_pos (by simpa using ha),
          List.filter_cons_of_neg (by simpa using not_le.mpr ha)]
        exact ih hpwt
      · rw [List.dropWhile_cons_of_neg (by simpa using ha),
          List.filter_cons_of_pos (by simpa using not_lt.mp ha)]
        have hall : t.filter (fun o => decide (c ≤ o.timestamp)) = t := by
          rw [List.filter_eq_self]
          intro b hb
          have h1 := hat b hb
          have h2 := not_lt.mp ha
          simp only [decide_eq_true_eq]
          linarith
        rw [hall]

/-- C6: `IsHealthy` is true for a backend never recorded; otherwise, with
the outcomes trimmed to those at or after `now - windowSize` (the code
drops a stale prefix, which on the sorted log equals filtering), it is
true when fewer than `minRequests` outcomes remain, and otherwise true
exactly when `failures / count` is strictly below `errorThreshold` — an
error rate equal to the threshold is unhealthy.  Stated for the sensible
configurations `minRequests ≥ 1` (the float64 arithmetic is modelled
exactly over `ℚ`, which at `count = 0` would diverge from Go's NaN). -/
theorem passiveChecker_isHealthy_spec (pc : PassiveChecker) (now : ℚ)
    (hmin : 1 ≤ pc.minRequests) :
    pc.isHealthy none now = true
  ∧ ∀ outcomes : List RequestOutcome,
      outcomes.Pairwise (fun a b => a.timestamp ≤ b.timestamp) →
      (((outcomes.filter fun o => decide (now - pc.windowSize ≤ o.timestamp)).length : Int)
            < pc.minRequests → pc.isHealthy (some outcomes) now = true)
      ∧ (pc.minRequests ≤
            ((outcomes.filter fun o => decide (now - pc.windowSize ≤ o.timestamp)).length : Int) →
          ((pc.isHealthy (some outcomes) now = true
            ↔ (countFailures (outcomes.filter fun o => decide (now - pc.windowSize ≤ o.timestamp)) : ℚ)
                / ((outcomes.filter fun o => decide (now - pc.windowSize ≤ o.timestamp)).length : ℚ)
                < pc.errorThreshold)
          ∧ ((countFailures (outcomes.filter fun o => decide (now - pc.windowSize ≤ o.timestamp)) : ℚ)
                / ((outcomes.filter fun o => decide (now - pc.windowSize ≤ o.timestamp)).length : ℚ)
                = pc.errorThreshold → pc.isHealthy (some outcomes) now = false))) := by
  refine ⟨rfl, ?_⟩
  intro outcomes hsorted
  have hk := outcomes_dropWhile_eq_filter (now - pc.windowSize) outcomes hsorted
  refine ⟨?_, ?_⟩
  · intro hlt
    simp only [PassiveChecker.isHealthy, hk]
    rw [if_pos hlt]
  · intro hge
    have hnotlt : ¬ ((outcomes.filter fun o => decide (now - pc.windowSize ≤ o.timestamp)).length : Int)
        < pc.minRequests := by omega
    constructor
    · simp only [PassiveChecker.isHealthy, hk]
      rw [if_neg hnotlt]
      simp only [decide_eq_true_eq]
    · intro heq
      simp only [PassiveChecker.isHealthy, hk]
      rw [if_neg hnotlt]
      simp only [decide_eq_false_iff_not]
      rw [heq]
      exact lt_irrefl _

/-- Witness for C6: one recorded failure in the window with
`minRequests = 1` and `errorThreshold = 1` gives error rate exactly 1,
so the backend is judged unhealthy (strict inequality). -/
theorem passiveChecker_isHealthy_spec_witness :
    PassiveChecker.isHealthy ⟨10, 1, 1⟩ (some [⟨5, false⟩]) 10 = false := by
  have h := passiveChecker_isHealthy_spec ⟨10, 1, 1⟩ 10 (by norm_num)
  exact ((h.2 [⟨5, false⟩] (by simp)).2 (by norm_num)).2 (by norm_num [countFailures])

/-- C7: when every configured backend fails the combined (active AND
passive) filter, `Healthy()` falls back to the full configured list while
`HealthyOrError()` returns the sentinel error; when at least one backend
passes, both return exactly the passing backends in configured order. -/
theorem healthyPool_failOpen_failClosed (hp : HealthyPool) :
    ((∀ b ∈ hp.all, hp.checker.isHealthy b = false) →
        hp.healthy = hp.all ∧ hp.healthyOrError = .error errAllBackendsUnhealthy)
  ∧ ((∃ b ∈ hp.all, hp.checker.isHealthy b = true) →
        hp.healthy = hp.all.filter hp.checker.isHealthy
        ∧ hp.healthyOrError = .ok (hp.all.filter hp.checker.isHealthy))
  ∧ (∀ b, hp.checker.isHealthy b = (hp.checker.active b && hp.checker.passive b)) := by
  refine ⟨?_, ?_, fun b => rfl⟩
  · intro hall
    have hnil : hp.all.filter hp.checker.isHealthy = [] := by
      rw [List.filter_eq_nil_iff]
      intro b hb
      simp [hall b hb]
    constructor
    · simp [HealthyPool.healthy, hnil]
    · simp [HealthyPool.healthyOrError, hnil]
  · intro hex
    obtain ⟨b, hb, hbh⟩ := hex
    have hne : ¬ (hp.all.filter hp.checker.isHealthy).isEmpty = true := by
      simp only [List.isEmpty_iff, List.filter_eq_nil_iff]
      intro hcontra
      exact absurd hbh (by simp [hcontra b hb])
    constructor
    · simp only [HealthyPool.healthy]
      rw [if_neg hne]
    · simp only [HealthyPool.healthyOrError]
      rw [if_neg hne]

/-- Witness for C7 at concrete pools: with both backends failing the
filter, `Healthy()` fail-opens to the full list and `HealthyOrError()`
fail-closes; with one passing backend, both return just it. -/
theorem healthyPool_failOpen_failClosed_witness :
    (HealthyPool.healthy ⟨["a", "b"], fun _ => false, fun _ => true⟩ = ["a", "b"])
  ∧ (HealthyPool.healthyOrError ⟨["a", "b"], fun _ => false, fun _ => true⟩
        = .error errAllBackendsUnhealthy)
  ∧ (HealthyPool.healthy ⟨["a", "b"], fun s => s == "b", fun _ => true⟩ = ["b"]) := by
  have h1 := healthyPool_failOpen_failClosed ⟨["a", "b"], fun _ => false, fun _ => true⟩
  have h2 := healthyPool_failOpen_failClosed ⟨["a", "b"], fun s => s == "b", fun _ => true⟩
  have g1 := h1.1 (by intro b _; rfl)
  have g2 := h2.2.1 ⟨"b", by decide, by decide⟩
  refine ⟨g1.1, g1.2, ?_⟩
  rw [g2.1]
  decide

/-- Reset step: an `Allow` after at least two windows of idleness zeroes
both counters, restarts the window at `now`, and admits the request
(so `currCount` ends at 1). -/
theorem slidingWindow_allow_reset (sw : SlidingWindow) (now : ℚ)
    (hmax : 1 ≤ sw.maxRequests) (hidle : now - sw.windowStart ≥ 2 * sw.windowSize) :
    sw.allow now = ((true, 0),
      { sw with prevCount := 0, currCount := 1, windowStart := now }) := by
  obtain ⟨m, w, ws, p, c⟩ := sw
  simp only at hmax hidle
  simp only [SlidingWindow.allow]
  rw [if_pos hidle]
  norm_num
  exact_mod_cast hmax

/-- In-window step with empty previous window and room left: admit. -/
theorem slidingWindow_allow_inWindow_true (sw : SlidingWindow) (now : ℚ)
    (hw : 0 < sw.windowSize) (hprev : sw.prevCount = 0)
    (hlo : sw.windowStart ≤ now) (hhi : now < sw.windowStart + sw.windowSize)
    (hcap : sw.currCount + 1 ≤ sw.maxRequests) :
    sw.allow now = ((true, 0), { sw with currCount := sw.currCount + 1 }) := by
  obtain ⟨m, w, ws, p, c⟩ := sw
  simp only at hw hprev hlo hhi hcap
  subst hprev
  simp only [SlidingWindow.allow]
  rw [if_neg (by push_neg; linarith : ¬ now - ws ≥ 2 * w)]
  rw [if_neg (by push_neg; linarith : ¬ now - ws ≥ w)]
  have hcond : ¬ ((0 : Int) : ℚ) * (if 1 - (now - ws) / w < 0 then 0 else 1 - (now - ws) / w)
      + ((c : Int) : ℚ) + 1 > ((m : Int) : ℚ) := by
    push_neg
    push_cast
    have hc : ((c : ℚ)) + 1 ≤ (m : ℚ) := by exact_mod_cast hcap
    linarith [hc]
  rw [if_neg (by push_cast at hcond ⊢; convert hcond using 2)]

/-- In-window step with empty previous window and the limit reached:
reject with `windowSize - elapsed` and leave the state unchanged. -/
theorem slidingWindow_allow_inWindow_false (sw : SlidingWindow) (now : ℚ)
    (hw : 0 < sw.windowSize) (hprev : sw.prevCount = 0)
    (hlo : sw.windowStart ≤ now) (hhi : now < sw.windowStart + sw.windowSize)
    (hfull : sw.maxRequests ≤ sw.currCount) :
    sw.allow now = ((false, sw.windowSize - (now - sw.windowStart)), sw) := by
  obtain ⟨m, w, ws, p, c⟩ := sw
  simp only at hw hprev hlo hhi hfull
  subst hprev
  simp only [SlidingWindow.allow]
  rw [if_neg (by push_neg; linarith : ¬ now - ws ≥ 2 * w)]
  rw [if_neg (by push_neg; linarith : ¬ now - ws ≥ w)]
  have hcond : ((0 : Int) : ℚ) * (if 1 - (now - ws) / w < 0 then 0 else 1 - (now - ws) / w)
      + ((c : Int) : ℚ) + 1 > ((m : Int) : ℚ) := by
    push_cast
    have hc : (m : ℚ) ≤ (c : ℚ) := by exact_mod_cast hfull
    linarith [hc]
  rw [if_pos (by push_cast at hcond ⊢; convert hcond using 2)]

/-- A run of calls inside the current window with empty previous window
and enough remaining budget is admitted wholesale. -/
theorem slidingWindow_allowRun_inWindow :
    ∀ (ts : List ℚ) (sw : SlidingWindow), 0 < sw.windowSize → sw.prevCount = 0 →
    (∀ t ∈ ts, sw.windowStart ≤ t ∧ t < sw.windowStart + sw.windowSize) →
    sw.currCount + (ts.length : Int) ≤ sw.maxRequests →
    (sw.allowRun ts).1 = List.replicate ts.length true
    ∧ (sw.allowRun ts).2 = { sw with currCount := sw.currCount + (ts.length : Int) }
  | [], sw, _, _, _, _ =>
      ⟨rfl, by simp only [SlidingWindow.allowRun, List.length_nil, Nat.cast_zero, add_zero]⟩
  | t :: ts, sw, hw, hprev, hts, hcap => by
      have hmem := hts t (by simp)
      have hstep := slidingWindow_allow_inWindow_true sw t hw hprev hmem.1 hmem.2
        (by simp only [List.length_cons] at hcap; push_cast at hcap; omega)
      have hrec := slidingWindow_allowRun_inWindow ts { sw with currCount := sw.currCount + 1 }
        hw hprev (fun u hu => hts u (by simp [hu]))
        (by simp only [List.length_cons] at hcap; push_cast at hcap ⊢; omega)
      refine ⟨?_, ?_⟩
      · simp only [SlidingWindow.allowRun, hstep, hrec.1, List.length_cons,
          List.replicate_succ]
      · simp only [SlidingWindow.allowRun, hstep, hrec.2, List.length_cons]
        congr 1
        push_cast
        ring

/-- C8: with `maxRequests ≥ 1` and a positive window, once at least
`2·windowSize` passes with no calls, the next `Allow` resets both counters
and the window start (and is itself admitted), the first `maxRequests`
calls — the resetting call included — all succeed while they stay inside
the new window, and the `(maxRequests+1)`-th call inside that window is
rejected. -/
theorem slidingWindow_reset_burst (sw : SlidingWindow) (t0 : ℚ) (ts : List ℚ) (tlast : ℚ)
    (hmax : 1 ≤ sw.maxRequests) (hw : 0 < sw.windowSize)
    (hidle : t0 - sw.windowStart ≥ 2 * sw.windowSize)
    (hlen : (ts.length : Int) = sw.maxRequests - 1)
    (hts : ∀ t ∈ ts, t0 ≤ t ∧ t < t0 + sw.windowSize)
    (hlast : t0 ≤ tlast ∧ tlast < t0 + sw.windowSize) :
    ((sw.allow t0).2.prevCount = 0 ∧ (sw.allow t0).2.currCount = 1
        ∧ (sw.allow t0).2.windowStart = t0)
  ∧ (sw.allowRun (t0 :: ts)).1 = List.replicate (1 + ts.length) true
  ∧ (((sw.allowRun (t0 :: ts)).2).allow tlast).1.1 = false := by
  have hreset := slidingWindow_allow_reset sw t0 hmax hidle
  have hrun := slidingWindow_allowRun_inWindow ts
    { sw with prevCount := 0, currCount := 1, windowStart := t0 }
    hw rfl hts (by simp only; omega)
  have hfinalState : (sw.allowRun (t0 :: ts)).2
      = { sw with prevCount := 0, currCount := 1 + (ts.length : Int), windowStart := t0 } := by
    simp only [SlidingWindow.allowRun, hreset, hrun.2]
  have hfull : SlidingWindow.maxRequests
        { sw with prevCount := 0, currCount := 1 + (ts.length : Int), windowStart := t0 }
      ≤ SlidingWindow.currCount
        { sw with prevCount := 0, currCount := 1 + (ts.length : Int), windowStart := t0 } := by
    simp only
    omega
  have hfinal := slidingWindow_allow_inWindow_false
    { sw with prevCount := 0, currCount := 1 + (ts.length : Int), windowStart := t0 }
    tlast hw rfl hlast.1 hlast.2 hfull
  refine ⟨by rw [hreset]; exact ⟨rfl, rfl, rfl⟩, ?_, ?_⟩
  · simp only [SlidingWindow.allowRun, hreset, hrun.1, List.replicate_succ]
    rw [List.replicate_add]
    rfl
  · rw [hfinalState, hfinal]

/-- Witness for C8 at `maxRequests = 2`, `windowSize = 1`: after idling
from window start 0 until time 5 (with stale counters 7 and 9), the calls
at times 5 and 5 succeed and a third call at time 5 is rejected. -/
theorem slidingWindow_reset_burst_witness :
    ((SlidingWindow.allowRun ⟨2, 1, 0, 7, 9⟩ [5, 5]).1 = List.replicate 2 true)
  ∧ (((SlidingWindow.allowRun ⟨2, 1, 0, 7, 9⟩ [5, 5]).2).allow 5).1.1 = false := by
  have h := slidingWindow_reset_burst ⟨2, 1, 0, 7, 9⟩ 5 [5] 5 (by norm_num) (by norm_num)
    (by norm_num) (by norm_num)
    (by intro t ht; rw [List.mem_singleton] at ht; subst ht; constructor <;> norm_num)
    (by constructor <;> norm_num)
  refine ⟨?_, h.2.2⟩
  have h2 := h.2.1
  norm_num at h2 ⊢
  exact h2
